import Mathlib

/-!
Verification of the PAM WebSerial dashboard streaming decoder
(`src/PamWebSerialDashboard.jsx`).

The development shallowly embeds the decoding core of the component:

* `splitNewlines` models `container.split(/\r\n|[\r\n]/)` followed by
  popping the trailing segment, exactly as `LineBreakTransformer.transform`
  uses it (leftmost match, `\r\n` preferred over a lone `\r` or `\n`);
* `transform`, `flushTail`, `runChunks`, `frameChunks` model feeding a
  sequence of text chunks through one `LineBreakTransformer` instance and
  flushing at end of stream;
* the decoder state (`DashState`) and `handleLine`, `pushLog`,
  `parseMaybeNumber`, `buildTimestamp`, `updateLatest`, `updateSeries`,
  `assumeDefaultSchema`, `setCustomSchema` model the React component's
  stream-processing core (the revision that mirrors UI state into refs,
  so that header updates are visible within the same `handleLine` call).

JavaScript primitives that are external to the component are explicit
parameters: `JSEnv.jsNumber` models `Number(string)` restricted to finite
results (`none` stands for `NaN` and `±Infinity`, which the component
treats alike via `Number.isFinite`), and `JSEnv.jsDateParse` models
`new Date(string).getTime()` with `none` standing for `NaN`.

Strings are Lean `String`s; the character-level helpers (`strTrim`,
`splitCommaChars`, …) reimplement the exact JavaScript operations used by
the component. Note that on a string with no leading or trailing
whitespace — and `handleLine` always tokenizes `line.trim()` —
`split(/\s*,\s*/)` coincides with `split(",")` followed by trimming each
token, which is how `splitCsv` is stated.
-/

namespace Pam

/-! ## Line framer (`LineBreakTransformer`) -/

/-- Prepend a character to the first emitted line, or to the remainder when
no line has been emitted yet: the helper step for an ordinary (non-newline)
character of the buffered container. -/
def consLine (c : Char) : List (List Char) × List Char → List (List Char) × List Char
  | ([], r) => ([], c :: r)
  | (l :: ls, r) => ((c :: l) :: ls, r)

/-- Model of `container.split(/\r\n|[\r\n]/)` with the final segment popped
off: returns the complete lines (in order) and the trailing remainder that
`LineBreakTransformer` keeps buffered. The regex alternation prefers `\r\n`
at each position, so a `\r` immediately followed by `\n` consumes both;
otherwise `\r` and `\n` are single terminators. -/
def splitNewlines : List Char → List (List Char) × List Char
  | [] => ([], [])
  | '\r' :: '\n' :: rest => ([] :: (splitNewlines rest).1, (splitNewlines rest).2)
  | '\r' :: rest => ([] :: (splitNewlines rest).1, (splitNewlines rest).2)
  | '\n' :: rest => ([] :: (splitNewlines rest).1, (splitNewlines rest).2)
  | c :: rest => consLine c (splitNewlines rest)

/-- One `transform(chunk)` call of `LineBreakTransformer`: the chunk is
appended to the buffered container, the result is split, the last segment
becomes the new container and the other segments are enqueued. -/
def transform (container chunk : List Char) : List (List Char) × List Char :=
  splitNewlines (container ++ chunk)

/-- The `flush` step of `LineBreakTransformer`: enqueue the container if it
is non-empty. -/
def flushTail (container : List Char) : List (List Char) :=
  if container = [] then [] else [container]

/-- Feed a sequence of chunks through one `LineBreakTransformer` instance
starting from the given container, collecting all enqueued lines and the
final container. -/
def runChunks (container : List Char) : List (List Char) → List (List Char) × List Char
  | [] => ([], container)
  | ch :: rest =>
    let p := transform container ch
    let q := runChunks p.2 rest
    (p.1 ++ q.1, q.2)

/-- Frame a whole chunked stream: every `transform` output in order,
followed by the `flush` output at stream end. -/
def frameChunks (chunks : List (List Char)) : List (List Char) :=
  let p := runChunks [] chunks
  p.1 ++ flushTail p.2

/-- Discard empty framed lines (the decoder's `handleLine` ignores lines
that trim to nothing, and in particular empty lines). -/
def dropEmpty (ls : List (List Char)) : List (List Char) :=
  ls.filter (fun l => !l.isEmpty)

/-! Proof devices for the framer: newline normalization and LF-only
splitting. These are not part of the embedding; they relate the
mixed-terminator splitter to a single-terminator one. -/

/-- Newline normalization: rewrite every `\r\n` pair and every lone `\r`
to a single `\n`. -/
def normNl : List Char → List Char
  | [] => []
  | '\r' :: '\n' :: rest => '\n' :: normNl rest
  | '\r' :: rest => '\n' :: normNl rest
  | c :: rest => c :: normNl rest

/-- Split on `\n` only, popping the trailing segment. -/
def splitLF : List Char → List (List Char) × List Char
  | [] => ([], [])
  | '\n' :: rest => ([] :: (splitLF rest).1, (splitLF rest).2)
  | c :: rest => consLine c (splitLF rest)

theorem splitNewlines_eq_splitLF_normNl : ∀ s, splitNewlines s = splitLF (normNl s)
  | [] => rfl
  | '\r' :: '\n' :: rest => by
    simp [splitNewlines, normNl, splitLF, splitNewlines_eq_splitLF_normNl rest]
  | '\r' :: [] => by simp [splitNewlines, normNl, splitLF]
  | '\r' :: d :: rest => by
    by_cases hd : d = '\n'
    · subst hd
      simp [splitNewlines, normNl, splitLF, splitNewlines_eq_splitLF_normNl rest]
    · simp [splitNewlines, normNl, splitLF, hd,
        splitNewlines_eq_splitLF_normNl (d :: rest)]
  | '\n' :: rest => by
    simp [splitNewlines, normNl, splitLF, splitNewlines_eq_splitLF_normNl rest]
  | c :: rest => by
    by_cases hr : c = '\r'
    · subst hr
      rcases rest with _ | ⟨d, rest'⟩
      · simp [splitNewlines, normNl, splitLF]
      · by_cases hd : d = '\n'
        · subst hd
          simp [splitNewlines, normNl, splitLF, splitNewlines_eq_splitLF_normNl rest']
        · simp [splitNewlines, normNl, splitLF, hd,
            splitNewlines_eq_splitLF_normNl (d :: rest')]
    · by_cases hn : c = '\n'
      · subst hn
        simp [splitNewlines, normNl, splitLF, splitNewlines_eq_splitLF_normNl rest]
      · simp [splitNewlines, normNl, splitLF, hr, hn,
          splitNewlines_eq_splitLF_normNl rest]

theorem splitLF_fst_nil : ∀ s, (splitLF s).1 = [] → (splitLF s).2 = s := by
  intro s
  induction s with
  | nil => intro _; rfl
  | cons c rest ih =>
    intro h
    by_cases hn : c = '\n'
    · subst hn; simp [splitLF] at h
    · rcases hp : splitLF rest with ⟨ls, r⟩
      rcases ls with _ | ⟨l, ls'⟩
      · have h2 : r = rest := by
          have h3 := ih (by simp [hp])
          simpa [hp] using h3
        simp [splitLF, hn, hp, consLine, h2]
      · simp [splitLF, hn, hp, consLine] at h

theorem splitLF_append : ∀ s t, splitLF (s ++ t) =
    ((splitLF s).1 ++ (splitLF ((splitLF s).2 ++ t)).1,
     (splitLF ((splitLF s).2 ++ t)).2)
  | [], t => by simp [splitLF]
  | c :: s', t => by
    by_cases hc : c = '\n'
    · subst hc
      simp [splitLF, splitLF_append s' t]
    · have ih := splitLF_append s' t
      rcases hp : splitLF s' with ⟨ls, r⟩
      rcases ls with _ | ⟨l, ls'⟩
      · have hr : r = s' := by
          have h3 := splitLF_fst_nil s' (by simp [hp])
          simpa [hp] using h3
        rw [hr] at hp
        rcases hq : splitLF (s' ++ t) with ⟨ls2, r2⟩
        rcases ls2 with _ | ⟨l2, ls2'⟩ <;>
          simp [splitLF, hc, hp, hq, consLine]
      · simp only [hp] at ih
        simp only [List.cons_append, splitLF, hc]
        rw [hp, ih]
        simp [consLine]

theorem splitLF_nlfree : ∀ s, (∀ a ∈ s, a ≠ '\n') → splitLF s = ([], s) := by
  intro s
  induction s with
  | nil => intro _; rfl
  | cons c rest ih =>
    intro h
    have hc : c ≠ '\n' := h c (by simp)
    have h2 := ih (fun a ha => h a (by simp [ha]))
    simp [splitLF, hc, h2, consLine]

theorem splitLF_nlfree_append : ∀ r z, (∀ a ∈ r, a ≠ '\n') →
    splitLF (r ++ '\n' :: z) = (r :: (splitLF z).1, (splitLF z).2) := by
  intro r
  induction r with
  | nil => intro z _; simp [splitLF]
  | cons c r' ih =>
    intro z h
    have hc : c ≠ '\n' := h c (by simp)
    have h2 := ih z (fun a ha => h a (by simp [ha]))
    simp [splitLF, hc, h2, consLine]

theorem splitLF_snd_mem : ∀ s, ∀ a ∈ (splitLF s).2, a ∈ s ∧ a ≠ '\n' := by
  intro s
  induction s with
  | nil => intro a ha; simp [splitLF] at ha
  | cons c rest ih =>
    intro a ha
    by_cases hc : c = '\n'
    · subst hc
      simp only [splitLF] at ha
      exact ⟨by simp [(ih a ha).1], (ih a ha).2⟩
    · rcases hp : splitLF rest with ⟨ls, r⟩
      rcases ls with _ | ⟨l, ls'⟩
      · simp only [splitLF, hc, hp, consLine] at ha
        rcases List.mem_cons.mp ha with h1 | h1
        · exact ⟨by simp [h1], by rw [h1]; exact hc⟩
        · have h2 := ih a (by simp [hp]; exact h1)
          exact ⟨List.mem_cons_of_mem c h2.1, h2.2⟩
      · simp only [splitLF, hc, hp, consLine] at ha
        have h2 := ih a (by simp [hp]; exact ha)
        exact ⟨List.mem_cons_of_mem c h2.1, h2.2⟩

theorem normNl_no_cr : ∀ s, ∀ a ∈ normNl s, a ≠ '\r'
  | [], a => by simp [normNl]
  | c :: rest, a => by
    by_cases hr : c = '\r'
    · subst hr
      rcases rest with _ | ⟨d, rest'⟩
      · intro ha
        simp [normNl] at ha
        subst ha; decide
      · by_cases hd : d = '\n'
        · subst hd
          intro ha
          simp only [normNl] at ha
          rcases List.mem_cons.mp ha with h1 | h1
          · subst h1; decide
          · exact normNl_no_cr rest' a h1
        · intro ha
          simp [normNl, hd] at ha
          rcases ha with h1 | h1
          · subst h1; decide
          · exact normNl_no_cr (d :: rest') a (by simp [normNl, hd, h1])
    · intro ha
      simp [normNl, hr] at ha
      rcases ha with h1 | h1
      · subst h1; exact hr
      · exact normNl_no_cr rest a h1

theorem normNl_termFree_append : ∀ u s, (∀ a ∈ u, a ≠ '\r') →
    normNl (u ++ s) = u ++ normNl s := by
  intro u
  induction u with
  | nil => intro s _; rfl
  | cons c u' ih =>
    intro s h
    have hc : c ≠ '\r' := h c (by simp)
    have h2 := ih s (fun a ha => h a (by simp [ha]))
    simp [normNl, hc, h2]

theorem normNl_crfree : ∀ s, (∀ a ∈ s, a ≠ '\r') → normNl s = s := by
  intro s
  induction s with
  | nil => intro _; rfl
  | cons c rest ih =>
    intro h
    have hc : c ≠ '\r' := h c (by simp)
    have h2 := ih (fun a ha => h a (by simp [ha]))
    simp [normNl, hc, h2]

theorem normNl_append : ∀ a b, normNl (a ++ b) = normNl a ++ normNl b ∨
    (∃ b', b = '\n' :: b' ∧ normNl (a ++ b) = normNl a ++ normNl b' ∧
      ∃ q, normNl a = q ++ ['\n'])
  | [], b => Or.inl (by simp [normNl])
  | c :: a', b => by
    by_cases hr : c = '\r'
    · subst hr
      rcases a' with _ | ⟨d, a''⟩
      · rcases b with _ | ⟨e, b'⟩
        · exact Or.inl (by simp [normNl])
        · by_cases he : e = '\n'
          · subst he
            exact Or.inr ⟨b', rfl, by simp [normNl], [], by simp [normNl]⟩
          · exact Or.inl (by simp [normNl, he])
      · by_cases hd : d = '\n'
        · subst hd
          rcases normNl_append a'' b with h | ⟨b', hb, heq, q, hq⟩
          · exact Or.inl (by simp [normNl, h])
          · exact Or.inr ⟨b', hb, by simp [normNl, heq],
              '\n' :: q, by simp [normNl, hq]⟩
        · rcases normNl_append (d :: a'') b with h | ⟨b', hb, heq, q, hq⟩
          · refine Or.inl ?_
            simpa [normNl, hd] using h
          · refine Or.inr ⟨b', hb, ?_, '\n' :: q, by simp [normNl, hd, hq]⟩
            simpa [normNl, hd] using heq
    · rcases normNl_append a' b with h | ⟨b', hb, heq, q, hq⟩
      · exact Or.inl (by simp [normNl, hr, h])
      · exact Or.inr ⟨b', hb, by simp [normNl, hr, heq],
          c :: q, by simp [normNl, hr, hq]⟩

/-- Frames produced by a split result: the emitted lines plus the flush. -/
def framesOf (p : List (List Char) × List Char) : List (List Char) :=
  p.1 ++ flushTail p.2

theorem frameChunks_eq_framesOf (chunks : List (List Char)) :
    frameChunks chunks = framesOf (runChunks [] chunks) := rfl

theorem transform_eq (st ch : List Char) (h : ∀ a ∈ st, a ≠ '\r' ∧ a ≠ '\n') :
    transform st ch = splitLF (st ++ normNl ch) := by
  unfold transform
  rw [splitNewlines_eq_splitLF_normNl,
    normNl_termFree_append st ch (fun a ha => (h a ha).1)]

theorem transform_snd_termFree (st ch : List Char)
    (h : ∀ a ∈ st, a ≠ '\r' ∧ a ≠ '\n') :
    ∀ a ∈ (transform st ch).2, a ≠ '\r' ∧ a ≠ '\n' := by
  intro a ha
  rw [transform_eq st ch h] at ha
  have h2 := splitLF_snd_mem (st ++ normNl ch) a ha
  refine ⟨?_, h2.2⟩
  rcases List.mem_append.mp h2.1 with h3 | h3
  · exact (h a h3).1
  · exact normNl_no_cr ch a h3

theorem dropEmpty_append (x y : List (List Char)) :
    dropEmpty (x ++ y) = dropEmpty x ++ dropEmpty y := by
  simp [dropEmpty]

theorem dropEmpty_nil_cons (ls : List (List Char)) :
    dropEmpty ([] :: ls) = dropEmpty ls := by
  simp [dropEmpty]

theorem splitLF_snd_append_nl (x : List Char) : (splitLF (x ++ ['\n'])).2 = [] := by
  rw [splitLF_append x ['\n']]
  have hfree : ∀ a ∈ (splitLF x).2, a ≠ '\n' :=
    fun a ha => (splitLF_snd_mem x a ha).2
  have h2 := splitLF_nlfree_append (splitLF x).2 [] hfree
  simp only [splitLF] at h2
  simpa using congrArg Prod.snd h2

theorem runChunks_dropEmpty : ∀ chunks st, (∀ a ∈ st, a ≠ '\r' ∧ a ≠ '\n') →
    dropEmpty (framesOf (runChunks st chunks)) =
    dropEmpty (framesOf (splitLF (st ++ normNl chunks.flatten)))
  | [], st, h => by
    have h1 : normNl ([] : List (List Char)).flatten = [] := rfl
    rw [h1, List.append_nil, splitLF_nlfree st (fun a ha => (h a ha).2)]
    simp [runChunks, framesOf]
  | ch :: rest, st, h => by
    have hfree := transform_snd_termFree st ch h
    have ih := runChunks_dropEmpty rest (transform st ch).2 hfree
    have hrun : runChunks st (ch :: rest) =
        ((transform st ch).1 ++ (runChunks (transform st ch).2 rest).1,
         (runChunks (transform st ch).2 rest).2) := rfl
    have hjoin : (ch :: rest).flatten = ch ++ rest.flatten := by simp
    rw [hjoin]
    rcases normNl_append ch rest.flatten with hA | ⟨J2, hb, heq, q, hq⟩
    · rw [hA, ← List.append_assoc,
        splitLF_append (st ++ normNl ch) (normNl rest.flatten),
        ← transform_eq st ch h]
      have hR : framesOf ((transform st ch).1 ++
          (splitLF ((transform st ch).2 ++ normNl rest.flatten)).1,
          (splitLF ((transform st ch).2 ++ normNl rest.flatten)).2) =
          (transform st ch).1 ++
          framesOf (splitLF ((transform st ch).2 ++ normNl rest.flatten)) := by
        simp [framesOf]
      rw [hR, dropEmpty_append, ← ih, hrun]
      simp [framesOf, dropEmpty_append]
    · rw [heq, ← List.append_assoc,
        splitLF_append (st ++ normNl ch) (normNl J2),
        ← transform_eq st ch h]
      have hsnd : (transform st ch).2 = [] := by
        rw [transform_eq st ch h, hq, ← List.append_assoc]
        exact splitLF_snd_append_nl (st ++ q)
      have hnormJ : normNl rest.flatten = '\n' :: normNl J2 := by
        rw [hb]
        simp [normNl]
      have hih2 : dropEmpty (framesOf (runChunks (transform st ch).2 rest)) =
          dropEmpty (framesOf (splitLF (normNl J2))) := by
        rw [ih, hsnd, List.nil_append, hnormJ]
        have hLF : splitLF ('\n' :: normNl J2) =
            ([] :: (splitLF (normNl J2)).1, (splitLF (normNl J2)).2) := by
          simp [splitLF]
        rw [hLF]
        simp [framesOf, dropEmpty_nil_cons, dropEmpty_append]
      rw [hrun]
      have hL : framesOf ((transform st ch).1 ++
          (runChunks (transform st ch).2 rest).1,
          (runChunks (transform st ch).2 rest).2) =
          (transform st ch).1 ++ framesOf (runChunks (transform st ch).2 rest) := by
        simp [framesOf]
      rw [hL, dropEmpty_append, hih2, hsnd]
      have hRf : framesOf ((transform st ch).1 ++ (splitLF ([] ++ normNl J2)).1,
          (splitLF ([] ++ normNl J2)).2) =
          (transform st ch).1 ++ framesOf (splitLF (normNl J2)) := by
        simp [framesOf]
      rw [hRf, dropEmpty_append]

theorem frameChunks_dropEmpty_join (chunks : List (List Char)) :
    dropEmpty (frameChunks chunks) = dropEmpty (frameChunks [chunks.flatten]) := by
  rw [frameChunks_eq_framesOf, frameChunks_eq_framesOf,
    runChunks_dropEmpty chunks [] (by simp),
    runChunks_dropEmpty [chunks.flatten] [] (by simp)]
  simp

/-! ## Claims C3 and C4: framing invariance -/

/-- Line terminators the device may emit. -/
inductive Terminator where
  | lf
  | cr
  | crlf
deriving DecidableEq, Repr

/-- Characters of a terminator. -/
def termChars : Terminator → List Char
  | .lf => ['\n']
  | .cr => ['\r']
  | .crlf => ['\r', '\n']

/-- A stream built from line contents, each followed by its assigned
terminator. -/
def mixedStream (ps : List (List Char × Terminator)) : List Char :=
  (ps.map (fun p => p.1 ++ termChars p.2)).flatten

/-- The same line contents, each terminated by a single LF. -/
def lfStream (ps : List (List Char × Terminator)) : List Char :=
  (ps.map (fun p => p.1 ++ ['\n'])).flatten

theorem normNl_mixedStream : ∀ ps : List (List Char × Terminator),
    (∀ p ∈ ps, p.1 ≠ [] ∧ ∀ a ∈ p.1, a ≠ '\r' ∧ a ≠ '\n') →
    normNl (mixedStream ps) = lfStream ps
  | [], _ => rfl
  | (l, t) :: rest, h => by
    have hl := h (l, t) (by simp)
    have hrest : ∀ p ∈ rest, p.1 ≠ [] ∧ ∀ a ∈ p.1, a ≠ '\r' ∧ a ≠ '\n' :=
      fun p hp => h p (by simp [hp])
    have ih := normNl_mixedStream rest hrest
    have hms : mixedStream ((l, t) :: rest) =
        l ++ (termChars t ++ mixedStream rest) := by
      simp [mixedStream]
    have hcore : normNl (termChars t ++ mixedStream rest) =
        '\n' :: normNl (mixedStream rest) := by
      cases t with
      | lf => simp [termChars, normNl]
      | crlf => simp [termChars, normNl]
      | cr =>
        rcases hm : mixedStream rest with _ | ⟨d, M⟩
        · simp [termChars, normNl]
        · have hd : d ≠ '\n' := by
            rcases rest with _ | ⟨⟨l2, t2⟩, rest2⟩
            · simp [mixedStream] at hm
            · have hl2 := hrest (l2, t2) (by simp)
              rcases l2 with _ | ⟨e, l2t⟩
              · exact absurd rfl hl2.1
              · have hm2 : mixedStream ((e :: l2t, t2) :: rest2) =
                    e :: (l2t ++ termChars t2 ++ mixedStream rest2) := by
                  simp [mixedStream]
                rw [hm2] at hm
                have he : d = e := ((List.cons.injEq _ _ _ _).mp hm).1.symm
                subst he
                exact (hl2.2 d (by simp)).2
          simp [termChars, normNl, hd]
    rw [hms, normNl_termFree_append l _ (fun a ha => (hl.2 a ha).1), hcore, ih]
    have hlf : lfStream ((l, t) :: rest) = l ++ ('\n' :: lfStream rest) := by
      simp [lfStream]
    rw [hlf]

theorem lfStream_crfree : ∀ ps : List (List Char × Terminator),
    (∀ p ∈ ps, p.1 ≠ [] ∧ ∀ a ∈ p.1, a ≠ '\r' ∧ a ≠ '\n') →
    ∀ a ∈ lfStream ps, a ≠ '\r'
  | [], _, a, ha => by simp [lfStream] at ha
  | (l, t) :: rest, h, a, ha => by
    have hlf : lfStream ((l, t) :: rest) = l ++ ('\n' :: lfStream rest) := by
      simp [lfStream]
    rw [hlf] at ha
    rcases List.mem_append.mp ha with h1 | h1
    · exact ((h (l, t) (by simp)).2 a h1).1
    · rcases List.mem_cons.mp h1 with h2 | h2
      · subst h2; decide
      · exact lfStream_crfree rest (fun p hp => h p (by simp [hp])) a h2

theorem frameChunks_single (s : List Char) :
    frameChunks [s] = framesOf (splitNewlines s) := by
  simp [frameChunks, runChunks, transform, framesOf]

/-- C3 counterexample data: the chunk pair splits a CRLF terminator. -/
def chunkA : List Char := ['a', '\r']

/-- Second half of the C3 counterexample chunk pair. -/
def chunkB : List Char := ['\n', 'b']

/-- C3: splitting the stream `"a\r\nb"` into the chunks `"a\r"` and
`"\nb"` changes the framed output: the single chunk frames to
`["a", "b"]` but the two chunks frame to `["a", "", "b"]` — a CRLF pair
straddling a chunk boundary is counted as two terminators, so the framed
line sequence is not invariant under re-chunking and the claim as stated
is false. -/
theorem c3_counterexample :
    [chunkA, chunkB].flatten = [['a', '\r', '\n', 'b']].flatten ∧
    frameChunks [chunkA, chunkB] ≠ frameChunks [['a', '\r', '\n', 'b']] := by
  constructor
  · decide
  · decide

/-- C3 (amended): for any two chunkings of the same character stream, the
framed line sequences agree after discarding empty lines (which
`handleLine` ignores); the only chunking artifact is an extra empty line
where a CRLF pair straddles a chunk boundary. -/
theorem c3_amended_framing (cs1 cs2 : List (List Char))
    (h : cs1.flatten = cs2.flatten) :
    dropEmpty (frameChunks cs1) = dropEmpty (frameChunks cs2) := by
  rw [frameChunks_dropEmpty_join cs1, frameChunks_dropEmpty_join cs2, h]

/-- Witness for the amended C3 theorem at a concrete chunking. -/
theorem c3_amended_framing_witness :
    [chunkA, chunkB].flatten = [['a', '\r', '\n', 'b']].flatten ∧
    dropEmpty (frameChunks [chunkA, chunkB]) =
      dropEmpty (frameChunks [['a', '\r', '\n', 'b']]) :=
  ⟨by decide, c3_amended_framing [chunkA, chunkB] [['a', '\r', '\n', 'b']] (by decide)⟩

/-- C4 counterexample data: a CR-terminated line followed by an empty
LF-terminated line. -/
def psC4 : List (List Char × Terminator) :=
  [(['a'], .cr), ([], .lf), (['b'], .lf)]

/-- C4: with line contents `"a"`, `""`, `"b"` and terminators CR, LF, LF,
the stream is `"a\r\nb\n"`, whose CR and following LF fuse into a single
CRLF terminator: it frames to `["a", "b"]`, while the all-LF equivalent
`"a\n\nb\n"` frames to `["a", "", "b"]`. Mixed terminators therefore do
not always frame identically to the all-LF stream, and the claim as
stated is false. -/
theorem c4_counterexample :
    frameChunks [mixedStream psC4] ≠ frameChunks [lfStream psC4] := by
  decide

/-- C4 (amended): for every sequence of non-empty, terminator-free line
contents and every assignment of LF, CR, or CRLF terminators to them, the
resulting stream frames identically to the all-LF equivalent. (The
restriction to non-empty contents is forced by the counterexample: a CR
terminator directly followed by an LF-led terminator of an empty line
fuses into one CRLF.) -/
theorem c4_mixed_terminators (ps : List (List Char × Terminator))
    (h : ∀ p ∈ ps, p.1 ≠ [] ∧ ∀ a ∈ p.1, a ≠ '\r' ∧ a ≠ '\n') :
    frameChunks [mixedStream ps] = frameChunks [lfStream ps] := by
  rw [frameChunks_single, frameChunks_single,
    splitNewlines_eq_splitLF_normNl, splitNewlines_eq_splitLF_normNl,
    normNl_mixedStream ps h, normNl_crfree (lfStream ps) (lfStream_crfree ps h)]

/-- Witness for the amended C4 theorem at a concrete terminator mix. -/
theorem c4_mixed_terminators_witness :
    (∀ p ∈ [(['a'], Terminator.cr), (['b'], Terminator.crlf), (['c'], Terminator.lf)],
      p.1 ≠ [] ∧ ∀ a ∈ p.1, a ≠ '\r' ∧ a ≠ '\n') ∧
    frameChunks [mixedStream [(['a'], .cr), (['b'], .crlf), (['c'], .lf)]] =
      frameChunks [lfStream [(['a'], .cr), (['b'], .crlf), (['c'], .lf)]] :=
  ⟨by decide, c4_mixed_terminators _ (by decide)⟩

/-! ## String primitives

Character-level reimplementations of the JavaScript string operations the
component uses, so that every decoder function below is executable by the
kernel. -/

/-- Whitespace characters stripped by `String.prototype.trim` (the ASCII
ones, which are the only ones the telemetry dialect can contain). -/
def isWsChar (c : Char) : Bool :=
  c = ' ' || c = '\t' || c = '\n' || c = '\r'

/-- Trim leading and trailing whitespace from a character list. -/
def trimChars (l : List Char) : List Char :=
  ((l.dropWhile isWsChar).reverse.dropWhile isWsChar).reverse

/-- Model of `s.trim()`. -/
def strTrim (s : String) : String := ⟨trimChars s.data⟩

/-- Model of `s.split(",")`: split at every comma, keeping empty segments,
with `[""]` for the empty string. -/
def splitCommaChars : List Char → List (List Char)
  | [] => [[]]
  | c :: rest =>
    let r := splitCommaChars rest
    if c = ',' then [] :: r
    else
      match r with
      | [] => [[c]]
      | cell :: cells => (c :: cell) :: cells

/-- Tokenization used on data and header lines: `split(/\s*,\s*/)`. On a
string with no leading or trailing whitespace — `handleLine` always applies
it to `line.trim()` — this is the same as splitting at commas and trimming
each token, which is how it is stated here. -/
def splitCsv (s : String) : List String :=
  (splitCommaChars s.data).map (fun cs => strTrim ⟨cs⟩)

/-- Model of `s.includes(",")` / `/,/.test(s)`. -/
def strContainsComma (s : String) : Bool := s.data.contains ','

/-- Model of `/[A-Za-z]/.test(s)`. -/
def strContainsAlpha (s : String) : Bool := s.data.any Char.isAlpha

/-- Model of `s.toUpperCase()` (ASCII). -/
def strToUpper (s : String) : String := ⟨s.data.map Char.toUpper⟩

/-- Characters allowed by `looksLikeNumericCsv`: `/^[0-9 .,:\-]+$/`. -/
def numericCsvChar (c : Char) : Bool :=
  c.isDigit || c = ' ' || c = '.' || c = ',' || c = ':' || c = '-'

/-- Model of `looksLikeNumericCsv`: the line is non-empty and consists only
of digits, spaces, `.`, `,`, `:`, `-`. -/
def looksLikeNumericCsv (s : String) : Bool :=
  !s.data.isEmpty && s.data.all numericCsvChar

/-! ## Sensor catalog (`SENSOR_MAP`)

The `matches` closures are case-insensitive regex tests over a header
name. They are modelled by an explicit scan: `testSub pat lb rb h` holds
when the literal pattern `pat` occurs in the lowercased `h`, with a word
boundary (`\b`, JavaScript word characters `[A-Za-z0-9_]`) required on the
left when `lb` and on the right when `rb`. -/

/-- JavaScript `\w` word characters. -/
def isWordChar (c : Char) : Bool := c.isAlphanum || c = '_'

/-- Right-hand word boundary: the next character is absent or non-word. -/
def rightBoundary (s : List Char) : Bool :=
  match s with
  | [] => true
  | c :: _ => !isWordChar c

/-- Left-hand word boundary: the previous character is absent or non-word. -/
def leftBoundary (prev : Option Char) : Bool :=
  match prev with
  | none => true
  | some c => !isWordChar c

/-- Does `pat` occur at the head of `s`, with a right word boundary after
it when `rb`? -/
def matchHere (pat s : List Char) (rb : Bool) : Bool :=
  match pat, s with
  | [], rest => !rb || rightBoundary rest
  | _ :: _, [] => false
  | p :: pat2, c :: s2 => p == c && matchHere pat2 s2 rb

/-- Scan `s` for an occurrence of `pat`, tracking the previous character
for the left-boundary test. -/
def occursFrom (pat : List Char) (lb rb : Bool) : Option Char → List Char → Bool
  | prev, [] => (!lb || leftBoundary prev) && matchHere pat [] rb
  | prev, c :: s2 =>
    ((!lb || leftBoundary prev) && matchHere pat (c :: s2) rb) ||
      occursFrom pat lb rb (some c) s2

/-- Case-insensitive pattern test over a header name (`/.../i.test(h)`). -/
def testSub (pat : String) (lb rb : Bool) (h : String) : Bool :=
  occursFrom pat.data lb rb none (h.data.map Char.toLower)

/-- One entry of `SENSOR_MAP`; `matchesName` models the entry's `matches`
closure. -/
structure SensorMeta where
  key : String
  matchesName : String → Bool
  label : String
  unit : String

/-- The static sensor catalog, with each `matches` mirroring the source
regex: `\bPM1\b`, `PM2\.5`, `\bPM10\b`, `\bNO2\b`, `\bCO\b`, `\bCO2\b`,
`TVOC`, `RELH|RH\b`, `TEMP\b`, `PRESS\b`, `METHANE|CH4`, `Battery`, all
case-insensitive. -/
def SENSOR_MAP : List SensorMeta := [
  ⟨"PM1", testSub "pm1" true true, "PM1", "µg/m³"⟩,
  ⟨"PM2_5", testSub "pm2.5" false false, "PM2.5", "µg/m³"⟩,
  ⟨"PM10", testSub "pm10" true true, "PM10", "µg/m³"⟩,
  ⟨"NO2", testSub "no2" true true, "NO₂", "ppb"⟩,
  ⟨"CO", testSub "co" true true, "CO", "ppb"⟩,
  ⟨"CO2", testSub "co2" true true, "CO₂", "ppm"⟩,
  ⟨"TVOC", testSub "tvoc" false false, "TVOCs", "ppb"⟩,
  ⟨"RH", fun h => testSub "relh" false false h || testSub "rh" false true h,
    "Relative Humidity", "%"⟩,
  ⟨"TEMP", testSub "temp" false true, "Temperature", "°C"⟩,
  ⟨"PRESS", testSub "press" false true, "Pressure", "hPa"⟩,
  ⟨"CH4", fun h => testSub "methane" false false h || testSub "ch4" false false h,
    "Methane", "ppm"⟩,
  ⟨"BAT", testSub "battery" false false, "Battery", "%"⟩]

/-- The built-in fallback header (`DEFAULT_HEADER`), 14 fields. -/
def DEFAULT_HEADER : List String := [
  "DeviceId", "PM1(UGM3)", "PM2.5(UGM3)", "PM10(UGM3)", "TVOC(PPB)",
  "CO2(PPM)", "RELHUM(%)", "TEMP(C)", "PRESS(MBAR)", "LAT(LAT)", "LON(LON)",
  "Battery(%)", "Date", "Time"]

/-! ## Decoder state and row processing -/

/-- External JavaScript primitives: `Number(string)` restricted to finite
results (`none` models `NaN` and `±Infinity`, rejected alike by
`Number.isFinite`), and `new Date(string).getTime()` (`none` models `NaN`). -/
structure JSEnv where
  jsNumber : String → Option ℚ
  jsDateParse : String → Option Int

/-- A value stored in the `latest` snapshot object: a finite number, a
string, or `null`. -/
inductive JSValue where
  | num (q : ℚ)
  | str (s : String)
  | null
deriving DecidableEq, Repr

/-- One point of a sensor time series: `{ t, v }` with `v` possibly null. -/
structure SeriesPoint where
  t : Int
  v : Option ℚ
deriving DecidableEq, Repr

/-- Model of `parseMaybeNumber`: `null`/`undefined` stays null; trim; the
empty string and case-insensitive `"N/A"` give null; then `Number(v)`,
keeping only finite results. -/
def parseMaybeNumber (env : JSEnv) : Option String → Option ℚ
  | none => none
  | some value =>
    if strTrim value = "" ∨ strToUpper (strTrim value) = "N/A" then none
    else env.jsNumber (strTrim value)

/-- JavaScript `a || b` on possibly-absent strings: an empty string is
falsy and falls through to `b`. -/
def jsOrStr : Option String → Option String → Option String
  | some s, b => if s = "" then b else some s
  | none, b => b

/-- Truthiness of a possibly-absent string. -/
def truthyStr : Option String → Bool
  | some s => s ≠ ""
  | none => false

/-- Model of `buildTimestamp`: read `row["Date"] || row["DATE"]` and
`row["Time"] || row["TIME"]`; when both are truthy, parse
`` `${dateStr}T${timeStr}` `` and use the result unless it is `NaN`;
otherwise fall back to the wall-clock instant. -/
def buildTimestamp (env : JSEnv) (row : List (String × String))
    (fallbackMs : Int) : Int :=
  let dateStr := jsOrStr (List.lookup "Date" row) (List.lookup "DATE" row)
  let timeStr := jsOrStr (List.lookup "Time" row) (List.lookup "TIME" row)
  if truthyStr dateStr && truthyStr timeStr then
    match env.jsDateParse (dateStr.getD "" ++ "T" ++ timeStr.getD "") with
    | some ms => ms
    | none => fallbackMs
  else fallbackMs

/-- Assignment `obj[k] = v` on an object modelled as an association list:
replace the binding in place when the key exists, append otherwise. -/
def upsert {β : Type} (k : String) (v : β) :
    List (String × β) → List (String × β)
  | [] => [(k, v)]
  | (k2, v2) :: rest =>
    if k2 = k then (k, v) :: rest else (k2, v2) :: upsert k v rest

/-- The decoded field map: `row[hdr[i]] = cells[i]` for each index (only
invoked when `cells.length = hdr.length`). -/
def buildRow (hdr cells : List String) : List (String × String) :=
  (List.zip hdr cells).foldl (fun acc p => upsert p.1 p.2 acc) []

/-- One field's snapshot value: `parseMaybeNumber(row[h]) ?? row[h] ?? null`
— the parsed number when finite, otherwise the raw string, and null only
when the value is absent. -/
def coerceLatest (env : JSEnv) (v2 : Option String) : JSValue :=
  match parseMaybeNumber env v2 with
  | some q => .num q
  | none =>
    match v2 with
    | some s => .str s
    | none => .null

/-- The `setLatest` updater: write every field of the header. -/
def updateLatest (env : JSEnv) (hdr : List String)
    (row : List (String × String)) (latest : List (String × JSValue)) :
    List (String × JSValue) :=
  hdr.foldl (fun acc h => upsert h (coerceLatest env (List.lookup h row)) acc) latest

/-- The series bound (`maxPoints`). -/
def maxPoints : Nat := 600

/-- Append bound: `splice(0, length - maxPoints)` when over the bound. -/
def boundAppend (l : List SeriesPoint) : List SeriesPoint :=
  if maxPoints < l.length then l.drop (l.length - maxPoints) else l

/-- The `setSeries` updater: for every catalog sensor whose pattern matches
some header field (first match in header order), append `{t, v}` to that
sensor's series and enforce the bound. -/
def updateSeries (env : JSEnv) (hdr : List String)
    (row : List (String × String)) (t : Int)
    (series : List (String × List SeriesPoint)) :
    List (String × List SeriesPoint) :=
  SENSOR_MAP.foldl (fun acc meta =>
    match hdr.find? meta.matchesName with
    | none => acc
    | some mh =>
      let v := parseMaybeNumber env (List.lookup mh row)
      let old := (List.lookup meta.key acc).getD []
      upsert meta.key (boundAppend (old ++ [⟨t, v⟩])) acc) series

/-- The component's decoding state: schema, snapshot, series, raw log, and
a count of `console.warn` diagnostics. -/
structure DashState where
  header : Option (List String)
  latest : List (String × JSValue)
  series : List (String × List SeriesPoint)
  rawLog : List String
  warnings : Nat
deriving DecidableEq, Repr

/-- Initial component state. -/
def initState : DashState := ⟨none, [], [], [], 0⟩

/-- Model of `pushLog`: append, then `splice(0, length - 2000)` when over
2000 entries. -/
def pushLog (log : List String) (line : String) : List String :=
  let next := log ++ [line]
  if 2000 < next.length then next.drop (next.length - 2000) else next

/-- Decode a data row against a known header: tokenize, reject on an arity
mismatch with a `console.warn` diagnostic and no store change, otherwise
build the field map, resolve the timestamp, and update both stores. -/
def decodeRow (env : JSEnv) (now : Int) (hdr : List String) (trimmed : String)
    (st : DashState) : DashState :=
  if (splitCsv trimmed).length ≠ hdr.length then
    { st with warnings := st.warnings + 1 }
  else
    { st with
      latest := updateLatest env hdr (buildRow hdr (splitCsv trimmed)) st.latest,
      series := updateSeries env hdr (buildRow hdr (splitCsv trimmed))
        (buildTimestamp env (buildRow hdr (splitCsv trimmed)) now) st.series }

/-- Model of `handleLine` (the ref-based revision): trim, drop empty lines,
always log; with no header yet, adopt a textual header line, or the default
header on a 14-token numeric line (decoding that same line as data), or
discard; with a header, decode lines that contain the delimiter. -/
def handleLine (env : JSEnv) (now : Int) (line : String) (st : DashState) :
    DashState :=
  let trimmed := strTrim line
  if trimmed = "" then st
  else
    let st1 := { st with rawLog := pushLog st.rawLog trimmed }
    match st1.header with
    | none =>
      if strContainsComma trimmed && strContainsAlpha trimmed then
        { st1 with header := some (splitCsv trimmed) }
      else if strContainsComma trimmed && looksLikeNumericCsv trimmed then
        if (splitCsv trimmed).length = DEFAULT_HEADER.length then
          decodeRow env now DEFAULT_HEADER trimmed
            { st1 with header := some DEFAULT_HEADER }
        else st1
      else st1
    | some hdr =>
      if strContainsComma trimmed then decodeRow env now hdr trimmed st1
      else st1

/-- The "Assume Default Header" action: set the schema to `DEFAULT_HEADER`
and log. -/
def assumeDefaultSchema (st : DashState) : DashState :=
  { st with header := some DEFAULT_HEADER,
            rawLog := pushLog st.rawLog "Assumed default header" }

/-- Tokens of the "Set Header" input: `split(",").map(trim).filter(Boolean)`. -/
def customTokens (input : String) : List String :=
  (((splitCommaChars input.data).map (fun cs => strTrim ⟨cs⟩)).filter
    (fun s => !s.isEmpty))

/-- The "Set Header" action: adopt the tokens as the schema and log, unless
no non-empty token remains, in which case nothing happens. -/
def setCustomSchema (input : String) (st : DashState) : DashState :=
  let tokens := customTokens input
  if tokens.isEmpty then st
  else { st with header := some tokens,
                 rawLog := pushLog st.rawLog "Custom header set" }

/-- Process a list of (arrival instant, line) pairs in order. -/
def runLines (env : JSEnv) (inputs : List (Int × String)) (st : DashState) :
    DashState :=
  inputs.foldl (fun s p => handleLine env p.1 p.2 s) st

/-- The last `n` elements of a list, in order. -/
def lastN {α : Type} (n : Nat) (l : List α) : List α := l.drop (l.length - n)

/-! ## Store lemmas -/

theorem lookup_upsert_eq {β : Type} (k : String) (v : β) :
    ∀ m : List (String × β), List.lookup k (upsert k v m) = some v := by
  intro m
  induction m with
  | nil => simp [upsert, List.lookup]
  | cons p rest ih =>
    rcases p with ⟨k2, v2⟩
    by_cases h : k2 = k
    · subst h; simp [upsert, List.lookup]
    · have hb : (k == k2) = false := beq_eq_false_iff_ne.mpr (Ne.symm h)
      simp [upsert, h, List.lookup, ih, hb]

theorem lookup_upsert_ne {β : Type} (k k2 : String) (v : β) (hne : k ≠ k2) :
    ∀ m : List (String × β), List.lookup k (upsert k2 v m) = List.lookup k m := by
  intro m
  induction m with
  | nil =>
    have hb : (k == k2) = false := beq_eq_false_iff_ne.mpr hne
    simp [upsert, List.lookup, hb]
  | cons p rest ih =>
    rcases p with ⟨k3, v3⟩
    by_cases h : k3 = k2
    · subst h
      have hb : (k == k3) = false := beq_eq_false_iff_ne.mpr hne
      simp [upsert, List.lookup, hb]
    · simp [upsert, h, List.lookup, ih]

theorem lookup_foldl_upsert_not_mem (f : String → JSValue) :
    ∀ (hdr : List String) (acc : List (String × JSValue)) (k : String),
      k ∉ hdr →
      List.lookup k (hdr.foldl (fun acc h => upsert h (f h) acc) acc) =
        List.lookup k acc := by
  intro hdr
  induction hdr with
  | nil => intro acc k _; rfl
  | cons h0 rest ih =>
    intro acc k hk
    have h1 : k ∉ rest := fun hmem => hk (by simp [hmem])
    have h2 : k ≠ h0 := fun he => hk (by simp [he])
    simp only [List.foldl_cons]
    rw [ih _ k h1, lookup_upsert_ne k h0 _ h2]

theorem lookup_updateLatest (env : JSEnv) (row : List (String × String)) :
    ∀ (hdr : List String) (latest : List (String × JSValue)) (h : String),
      h ∈ hdr →
      List.lookup h (updateLatest env hdr row latest) =
        some (coerceLatest env (List.lookup h row)) := by
  intro hdr
  induction hdr with
  | nil => intro latest h hh; simp at hh
  | cons h0 rest ih =>
    intro latest h hh
    by_cases hr : h ∈ rest
    · exact ih _ h hr
    · have he : h = h0 := by
        rcases List.mem_cons.mp hh with h1 | h1
        · exact h1
        · exact absurd h1 hr
      subst he
      simp only [updateLatest, List.foldl_cons]
      rw [show (rest.foldl (fun acc h2 =>
          upsert h2 (coerceLatest env (List.lookup h2 row)) acc)
          (upsert h (coerceLatest env (List.lookup h row)) latest)) =
          updateLatest env rest row
          (upsert h (coerceLatest env (List.lookup h row)) latest) from rfl]
      rw [show updateLatest env rest row
          (upsert h (coerceLatest env (List.lookup h row)) latest) =
          rest.foldl (fun acc h2 =>
            upsert h2 (coerceLatest env (List.lookup h2 row)) acc)
          (upsert h (coerceLatest env (List.lookup h row)) latest) from rfl]
      rw [lookup_foldl_upsert_not_mem
        (fun h2 => coerceLatest env (List.lookup h2 row)) rest _ h hr]
      exact lookup_upsert_eq h _ _

theorem map_fst_upsert_not_mem {β : Type} (k : String) (v : β) :
    ∀ m : List (String × β), k ∉ m.map Prod.fst →
      (upsert k v m).map Prod.fst = m.map Prod.fst ++ [k] := by
  intro m
  induction m with
  | nil => intro _; simp [upsert]
  | cons p rest ih =>
    rcases p with ⟨k2, v2⟩
    intro hk
    have h1 : k2 ≠ k := fun he => hk (by simp [he])
    have h2 : k ∉ rest.map Prod.fst := fun hmem => hk (by simp [hmem])
    simp [upsert, h1, ih h2]

theorem length_foldl_upsert_fresh :
    ∀ (ps : List (String × String)) (acc : List (String × String)),
      (ps.map Prod.fst).Nodup →
      (∀ k ∈ ps.map Prod.fst, k ∉ acc.map Prod.fst) →
      (ps.foldl (fun acc p => upsert p.1 p.2 acc) acc).length =
        acc.length + ps.length := by
  intro ps
  induction ps with
  | nil => intro acc _ _; simp
  | cons p rest ih =>
    rcases p with ⟨k, v⟩
    intro acc hnd hfresh
    have hk : k ∉ acc.map Prod.fst := hfresh k (by simp)
    have hlen : (upsert k v acc).length = acc.length + 1 := by
      have := map_fst_upsert_not_mem k v acc hk
      have h2 : ((upsert k v acc).map Prod.fst).length =
          (acc.map Prod.fst ++ [k]).length := by rw [this]
      simpa using h2
    have hnd2 : (rest.map Prod.fst).Nodup := by
      simp only [List.map_cons, List.nodup_cons] at hnd
      exact hnd.2
    have hfresh2 : ∀ k2 ∈ rest.map Prod.fst, k2 ∉ (upsert k v acc).map Prod.fst := by
      intro k2 hk2
      rw [map_fst_upsert_not_mem k v acc hk]
      intro hmem
      rcases List.mem_append.mp hmem with h1 | h1
      · exact hfresh k2 (by simp [hk2]) h1
      · simp only [List.map_cons, List.nodup_cons] at hnd
        have : k2 = k := by simpa using h1
        subst this
        exact hnd.1 hk2
    simp only [List.foldl_cons]
    rw [ih _ hnd2 hfresh2, hlen]
    simp [Nat.add_assoc, Nat.add_comm 1 rest.length]

theorem buildRow_length (hdr cells : List String) (hnd : hdr.Nodup)
    (hlen : cells.length = hdr.length) :
    (buildRow hdr cells).length = hdr.length := by
  unfold buildRow
  have hfst : (List.zip hdr cells).map Prod.fst = hdr :=
    List.map_fst_zip hdr cells (by omega)
  have h1 := length_foldl_upsert_fresh (List.zip hdr cells) []
    (by rw [hfst]; exact hnd) (by simp)
  rw [h1]
  simp [List.length_zip, hlen]

/-- One catalog entry's step inside `updateSeries`. -/
def seriesStep (env : JSEnv) (hdr : List String) (row : List (String × String))
    (t : Int) (acc : List (String × List SeriesPoint)) (meta : SensorMeta) :
    List (String × List SeriesPoint) :=
  match hdr.find? meta.matchesName with
  | none => acc
  | some mh =>
    upsert meta.key
      (boundAppend (((List.lookup meta.key acc).getD []) ++
        [⟨t, parseMaybeNumber env (List.lookup mh row)⟩])) acc

theorem updateSeries_eq_foldl (env : JSEnv) (hdr : List String)
    (row : List (String × String)) (t : Int)
    (series : List (String × List SeriesPoint)) :
    updateSeries env hdr row t series =
      SENSOR_MAP.foldl (seriesStep env hdr row t) series := rfl

theorem lookup_foldl_seriesStep_not_mem (env : JSEnv) (hdr : List String)
    (row : List (String × String)) (t : Int) :
    ∀ (metas : List SensorMeta) (acc : List (String × List SeriesPoint))
      (k : String), (∀ m ∈ metas, m.key ≠ k) →
      List.lookup k (metas.foldl (seriesStep env hdr row t) acc) =
        List.lookup k acc := by
  intro metas
  induction metas with
  | nil => intro acc k _; rfl
  | cons meta rest ih =>
    intro acc k hk
    have h1 : meta.key ≠ k := hk meta (by simp)
    have h2 : ∀ m ∈ rest, m.key ≠ k := fun m hm => hk m (by simp [hm])
    simp only [List.foldl_cons]
    rw [ih _ k h2]
    unfold seriesStep
    rcases hdr.find? meta.matchesName with _ | mh
    · rfl
    · exact lookup_upsert_ne k meta.key _ (Ne.symm h1) acc

theorem lookup_foldl_seriesStep (env : JSEnv) (hdr : List String)
    (row : List (String × String)) (t : Int) :
    ∀ (metas : List SensorMeta) (acc : List (String × List SeriesPoint))
      (k : String), (metas.map SensorMeta.key).Nodup →
      List.lookup k (metas.foldl (seriesStep env hdr row t) acc) =
        List.lookup k acc ∨
      ∃ p : SeriesPoint,
        List.lookup k (metas.foldl (seriesStep env hdr row t) acc) =
          some (boundAppend (((List.lookup k acc).getD []) ++ [p])) := by
  intro metas
  induction metas with
  | nil => intro acc k _; exact Or.inl rfl
  | cons meta rest ih =>
    intro acc k hnd
    simp only [List.map_cons, List.nodup_cons] at hnd
    by_cases hk : meta.key = k
    · subst hk
      have hrest : ∀ m ∈ rest, m.key ≠ meta.key := by
        intro m hm he
        exact hnd.1 (he ▸ List.mem_map_of_mem SensorMeta.key hm)
      simp only [List.foldl_cons]
      rw [lookup_foldl_seriesStep_not_mem env hdr row t rest _ meta.key hrest]
      unfold seriesStep
      rcases hdr.find? meta.matchesName with _ | mh
      · exact Or.inl rfl
      · exact Or.inr ⟨_, lookup_upsert_eq meta.key _ acc⟩
    · have hacc : List.lookup k (seriesStep env hdr row t acc meta) =
          List.lookup k acc := by
        unfold seriesStep
        rcases hdr.find? meta.matchesName with _ | mh
        · rfl
        · exact lookup_upsert_ne k meta.key _ (fun he => hk he.symm) acc
      simp only [List.foldl_cons]
      rcases ih (seriesStep env hdr row t acc meta) k hnd.2 with h | ⟨p, hp⟩
      · exact Or.inl (by rw [h, hacc])
      · exact Or.inr ⟨p, by rw [hp, hacc]⟩

theorem boundAppend_eq_lastN (l : List SeriesPoint) :
    boundAppend l = lastN maxPoints l := by
  unfold boundAppend lastN
  by_cases h : maxPoints < l.length
  · simp [h]
  · have h2 : l.length - maxPoints = 0 := by omega
    simp [h, h2]

theorem lastN_length_le {α : Type} (n : Nat) (l : List α) :
    (lastN n l).length ≤ n := by
  simp only [lastN, List.length_drop]
  omega

theorem pushLog_eq_lastN (log : List String) (l : String) :
    pushLog log l = lastN 2000 (log ++ [l]) := by
  unfold pushLog lastN
  by_cases h : 2000 < (log ++ [l]).length
  · rw [if_pos h]
  · rw [if_neg h]
    have h2 : (log ++ [l]).length - 2000 = 0 := by
      simp only [List.length_append, List.length_cons, List.length_nil] at h ⊢
      omega
    rw [h2, List.drop_zero]

/-! ## `decodeRow` and `handleLine` branch lemmas -/

theorem decodeRow_rawLog (env : JSEnv) (now : Int) (hdr : List String)
    (s : String) (st : DashState) :
    (decodeRow env now hdr s st).rawLog = st.rawLog := by
  unfold decodeRow
  split <;> rfl

theorem decodeRow_header (env : JSEnv) (now : Int) (hdr : List String)
    (s : String) (st : DashState) :
    (decodeRow env now hdr s st).header = st.header := by
  unfold decodeRow
  split <;> rfl

theorem decodeRow_mismatch (env : JSEnv) (now : Int) (hdr : List String)
    (s : String) (st : DashState) (h : (splitCsv s).length ≠ hdr.length) :
    decodeRow env now hdr s st = { st with warnings := st.warnings + 1 } := by
  unfold decodeRow
  rw [if_pos h]

theorem decodeRow_match (env : JSEnv) (now : Int) (hdr : List String)
    (s : String) (st : DashState) (h : (splitCsv s).length = hdr.length) :
    decodeRow env now hdr s st =
      { st with
        latest := updateLatest env hdr (buildRow hdr (splitCsv s)) st.latest,
        series := updateSeries env hdr (buildRow hdr (splitCsv s))
          (buildTimestamp env (buildRow hdr (splitCsv s)) now) st.series } := by
  unfold decodeRow
  rw [if_neg (by omega)]

theorem handleLine_empty (env : JSEnv) (now : Int) (line : String)
    (st : DashState) (h : strTrim line = "") :
    handleLine env now line st = st := by
  unfold handleLine
  rw [if_pos h]

theorem handleLine_some_comma (env : JSEnv) (now : Int) (line : String)
    (st : DashState) (hdr : List String) (hh : st.header = some hdr)
    (ht : strTrim line ≠ "")
    (hc : strContainsComma (strTrim line) = true) :
    handleLine env now line st =
      decodeRow env now hdr (strTrim line)
        { st with rawLog := pushLog st.rawLog (strTrim line) } := by
  unfold handleLine
  rw [if_neg ht]
  simp only [hh, hc]
  simp

theorem handleLine_some_nocomma (env : JSEnv) (now : Int) (line : String)
    (st : DashState) (hdr : List String) (hh : st.header = some hdr)
    (ht : strTrim line ≠ "")
    (hc : strContainsComma (strTrim line) = false) :
    handleLine env now line st =
      { st with rawLog := pushLog st.rawLog (strTrim line) } := by
  unfold handleLine
  rw [if_neg ht]
  simp only [hh, hc]
  simp

theorem handleLine_none_textual (env : JSEnv) (now : Int) (line : String)
    (st : DashState) (hh : st.header = none) (ht : strTrim line ≠ "")
    (hc : strContainsComma (strTrim line) = true)
    (ha : strContainsAlpha (strTrim line) = true) :
    handleLine env now line st =
      { st with header := some (splitCsv (strTrim line)),
                rawLog := pushLog st.rawLog (strTrim line) } := by
  unfold handleLine
  rw [if_neg ht]
  simp only [hh, hc, ha]
  rfl

theorem handleLine_none_numeric14 (env : JSEnv) (now : Int) (line : String)
    (st : DashState) (hh : st.header = none) (ht : strTrim line ≠ "")
    (hc : strContainsComma (strTrim line) = true)
    (ha : strContainsAlpha (strTrim line) = false)
    (hn : looksLikeNumericCsv (strTrim line) = true)
    (h14 : (splitCsv (strTrim line)).length = DEFAULT_HEADER.length) :
    handleLine env now line st =
      decodeRow env now DEFAULT_HEADER (strTrim line)
        { st with header := some DEFAULT_HEADER,
                  rawLog := pushLog st.rawLog (strTrim line) } := by
  unfold handleLine
  rw [if_neg ht]
  simp only [hh, hc, ha, hn, h14]
  rfl

theorem handleLine_none_numeric_other (env : JSEnv) (now : Int) (line : String)
    (st : DashState) (hh : st.header = none) (ht : strTrim line ≠ "")
    (hc : strContainsComma (strTrim line) = true)
    (ha : strContainsAlpha (strTrim line) = false)
    (hn : looksLikeNumericCsv (strTrim line) = true)
    (h14 : (splitCsv (strTrim line)).length ≠ DEFAULT_HEADER.length) :
    handleLine env now line st =
      { st with rawLog := pushLog st.rawLog (strTrim line) } := by
  unfold handleLine
  rw [if_neg ht]
  simp only [hh, hc, ha, hn, h14]
  rfl

theorem handleLine_none_other (env : JSEnv) (now : Int) (line : String)
    (st : DashState) (hh : st.header = none) (ht : strTrim line ≠ "")
    (hca : (strContainsComma (strTrim line) && strContainsAlpha (strTrim line)) = false)
    (hcn : (strContainsComma (strTrim line) && looksLikeNumericCsv (strTrim line)) = false) :
    handleLine env now line st =
      { st with rawLog := pushLog st.rawLog (strTrim line) } := by
  unfold handleLine
  rw [if_neg ht]
  simp only [hh, hca, hcn]
  rfl

theorem numericCsvChar_not_alpha (c : Char) (h : numericCsvChar c = true) :
    c.isAlpha = false := by
  simp only [numericCsvChar, Bool.or_eq_true, decide_eq_true_eq] at h
  rcases h with ((((h | h) | h) | h) | h) | h
  · simp only [Char.isDigit, Bool.and_eq_true, decide_eq_true_eq] at h
    obtain ⟨h1, h2⟩ := h
    have h1a : (48 : Nat) ≤ c.val.toNat := h1
    have h2a : c.val.toNat ≤ 57 := h2
    simp only [Char.isAlpha, Char.isUpper, Char.isLower, Bool.or_eq_false_iff,
      Bool.and_eq_false_iff, decide_eq_false_iff_not, not_le]
    constructor
    · left
      intro hc
      have h3 : (65 : Nat) ≤ c.val.toNat := hc
      omega
    · left
      intro hc
      have h3 : (97 : Nat) ≤ c.val.toNat := hc
      omega
  all_goals subst h; decide

theorem looksLikeNumericCsv_no_alpha (s : String)
    (h : looksLikeNumericCsv s = true) : strContainsAlpha s = false := by
  simp only [looksLikeNumericCsv, Bool.and_eq_true, List.all_eq_true] at h
  simp only [strContainsAlpha, List.any_eq_false]
  intro c hc
  simp [numericCsvChar_not_alpha c (h.2 c hc)]

theorem handleLine_rawLog (env : JSEnv) (now : Int) (line : String)
    (st : DashState) (ht : strTrim line ≠ "") :
    (handleLine env now line st).rawLog = pushLog st.rawLog (strTrim line) := by
  rcases hh : st.header with _ | hdr
  · cases hc : strContainsComma (strTrim line)
    · rw [handleLine_none_other env now line st hh ht (by simp [hc]) (by simp [hc])]
    · cases ha : strContainsAlpha (strTrim line)
      · cases hn : looksLikeNumericCsv (strTrim line)
        · rw [handleLine_none_other env now line st hh ht
            (by simp [ha]) (by simp [hn])]
        · by_cases h14 : (splitCsv (strTrim line)).length = DEFAULT_HEADER.length
          · rw [handleLine_none_numeric14 env now line st hh ht hc ha hn h14,
              decodeRow_rawLog]
          · rw [handleLine_none_numeric_other env now line st hh ht hc ha hn h14]
      · rw [handleLine_none_textual env now line st hh ht hc ha]
  · cases hc : strContainsComma (strTrim line)
    · rw [handleLine_some_nocomma env now line st hdr hh ht hc]
    · rw [handleLine_some_comma env now line st hdr hh ht hc, decodeRow_rawLog]

theorem runLines_rawLog_le (env : JSEnv) :
    ∀ (inputs : List (Int × String)) (st : DashState),
      st.rawLog.length ≤ 2000 → (runLines env inputs st).rawLog.length ≤ 2000 := by
  intro inputs
  induction inputs with
  | nil => intro st h; exact h
  | cons p rest ih =>
    intro st h
    have hstep : (handleLine env p.1 p.2 st).rawLog.length ≤ 2000 := by
      by_cases ht : strTrim p.2 = ""
      · rw [handleLine_empty env p.1 p.2 st ht]; exact h
      · rw [handleLine_rawLog env p.1 p.2 st ht, pushLog_eq_lastN]
        exact lastN_length_le 2000 _
    exact ih _ hstep

/-! ## Claim C1: schema actions and store clearing -/

/-- A reachable state with a non-empty snapshot and a non-empty PM1 series. -/
def stWithData : DashState :=
  { header := some ["A", "B"], latest := [("A", .num 1)],
    series := [("PM1", [⟨0, some 1⟩])], rawLog := [], warnings := 0 }

/-- C1: the claim says force-default and set-custom clear the Snapshot and
every Series. In the code neither action touches `latest` or `series`: after
"Assume Default Header" on a state holding data, the Schema is replaced but
the Snapshot still holds its entry and the PM1 series its point, and
likewise after "Set Header". The claim as stated is false. -/
theorem c1_counterexample :
    (assumeDefaultSchema stWithData).header = some DEFAULT_HEADER ∧
    (assumeDefaultSchema stWithData).latest = [("A", .num 1)] ∧
    List.lookup "PM1" (assumeDefaultSchema stWithData).series =
      some [⟨0, some 1⟩] ∧
    (setCustomSchema "X,Y" stWithData).latest = [("A", .num 1)] := by
  refine ⟨rfl, rfl, by decide, by decide⟩

/-- C1 (amended): force-default always, and set-custom whenever at least one
non-empty token remains, replace the Schema (and append a log line), while
leaving the Snapshot and every Series exactly as they were — no reset
occurs. -/
theorem c1_schema_actions (st : DashState) (input : String) :
    (assumeDefaultSchema st).header = some DEFAULT_HEADER ∧
    (assumeDefaultSchema st).latest = st.latest ∧
    (assumeDefaultSchema st).series = st.series ∧
    (customTokens input ≠ [] →
      (setCustomSchema input st).header = some (customTokens input) ∧
      (setCustomSchema input st).latest = st.latest ∧
      (setCustomSchema input st).series = st.series) := by
  refine ⟨rfl, rfl, rfl, fun h => ?_⟩
  unfold setCustomSchema
  rw [if_neg (by simpa using h)]
  exact ⟨rfl, rfl, rfl⟩

/-- Witness for the amended C1 theorem. -/
theorem c1_schema_actions_witness :
    customTokens "a,b" ≠ [] ∧
    (setCustomSchema "a,b" initState).header = some (customTokens "a,b") ∧
    (setCustomSchema "a,b" initState).latest = initState.latest :=
  ⟨by decide, ((c1_schema_actions initState "a,b").2.2.2 (by decide)).1,
    ((c1_schema_actions initState "a,b").2.2.2 (by decide)).2.1⟩

/-! ## Claim C10: empty set-custom input is a no-op -/

/-- C10: when the "Set Header" input yields no non-empty token, the action
leaves the whole state — Schema, Snapshot, Series, and Raw Log — unchanged. -/
theorem c10_setCustomSchema_noop (input : String) (st : DashState)
    (h : customTokens input = []) : setCustomSchema input st = st := by
  unfold setCustomSchema
  rw [if_pos (by simp [h])]

/-- Witness for C10 on the empty string and a commas-and-spaces string. -/
theorem c10_setCustomSchema_noop_witness :
    customTokens "" = [] ∧ customTokens " , ,, " = [] ∧
    setCustomSchema "" initState = initState ∧
    setCustomSchema " , ,, " stWithData = stWithData :=
  ⟨by decide, by decide, c10_setCustomSchema_noop "" initState (by decide),
    c10_setCustomSchema_noop " , ,, " stWithData (by decide)⟩

/-! ## Claim C9: raw log -/

/-- Concrete oracle for witnesses: a few numeric literals parse, dates do
not. -/
def envT : JSEnv :=
  ⟨fun s => if s = "5" then some 5 else if s = "12" then some 12 else none,
   fun _ => none⟩

/-- C9: the claim says every ingested line is appended to the Raw Log. A
line that trims to nothing is dropped before logging (`if (!trimmed)
return`), and a line with surrounding whitespace is logged in trimmed form
rather than as the original line, so the claim as stated is false. -/
theorem c9_counterexample :
    (handleLine envT 0 "   " initState).rawLog = [] ∧
    (handleLine envT 0 " a " initState).rawLog = ["a"] := by
  constructor
  · decide
  · decide

/-- C9 (amended): every ingested line that is non-empty after trimming is
appended to the Raw Log in trimmed form, on every decode path alike (the
log write happens before schema detection); a line that trims to nothing
leaves the log unchanged; `pushLog` always keeps exactly the 2000 most
recent entries; and the Raw Log never exceeds 2000 entries along any run
from the initial state. -/
theorem c9_rawLog_bound (env : JSEnv) (now : Int) (line : String)
    (st : DashState) :
    (strTrim line ≠ "" →
      (handleLine env now line st).rawLog = pushLog st.rawLog (strTrim line)) ∧
    (strTrim line = "" → (handleLine env now line st).rawLog = st.rawLog) ∧
    (∀ (log : List String) (l : String),
      pushLog log l = lastN 2000 (log ++ [l]) ∧ (pushLog log l).length ≤ 2000) ∧
    (∀ inputs : List (Int × String),
      (runLines env inputs initState).rawLog.length ≤ 2000) := by
  refine ⟨fun ht => handleLine_rawLog env now line st ht,
    fun ht => by rw [handleLine_empty env now line st ht],
    fun log l => ⟨pushLog_eq_lastN log l, ?_⟩,
    fun inputs => runLines_rawLog_le env inputs initState (by simp [initState])⟩
  rw [pushLog_eq_lastN]
  exact lastN_length_le 2000 _

/-- Witness for the amended C9 theorem. -/
theorem c9_rawLog_bound_witness :
    strTrim " a " ≠ "" ∧
    (handleLine envT 0 " a " initState).rawLog =
      pushLog initState.rawLog (strTrim " a ") ∧
    strTrim "  " = "" ∧
    (handleLine envT 0 "  " stWithData).rawLog = stWithData.rawLog :=
  ⟨by decide, (c9_rawLog_bound envT 0 " a " initState).1 (by decide),
    by decide, (c9_rawLog_bound envT 0 "  " stWithData).2.1 (by decide)⟩

/-! ## Claim C7: series bound and FIFO eviction -/

theorem lookup_updateSeries (env : JSEnv) (hdr : List String)
    (row : List (String × String)) (t : Int)
    (series : List (String × List SeriesPoint)) (k : String) :
    List.lookup k (updateSeries env hdr row t series) = List.lookup k series ∨
    ∃ p : SeriesPoint,
      List.lookup k (updateSeries env hdr row t series) =
        some (lastN maxPoints (((List.lookup k series).getD []) ++ [p])) := by
  rw [updateSeries_eq_foldl]
  rcases lookup_foldl_seriesStep env hdr row t SENSOR_MAP series k (by decide)
    with h | ⟨p, hp⟩
  · exact Or.inl h
  · exact Or.inr ⟨p, by rw [hp, boundAppend_eq_lastN]⟩

theorem handleLine_series_step (env : JSEnv) (now : Int) (line : String)
    (st : DashState) (k : String) :
    List.lookup k (handleLine env now line st).series = List.lookup k st.series ∨
    ∃ p : SeriesPoint,
      List.lookup k (handleLine env now line st).series =
        some (lastN maxPoints (((List.lookup k st.series).getD []) ++ [p])) := by
  by_cases ht : strTrim line = ""
  · rw [handleLine_empty env now line st ht]
    exact Or.inl rfl
  rcases hh : st.header with _ | hdr
  · cases hc : strContainsComma (strTrim line)
    · rw [handleLine_none_other env now line st hh ht (by simp [hc]) (by simp [hc])]
      exact Or.inl rfl
    · cases ha : strContainsAlpha (strTrim line)
      · cases hn : looksLikeNumericCsv (strTrim line)
        · rw [handleLine_none_other env now line st hh ht
            (by simp [ha]) (by simp [hn])]
          exact Or.inl rfl
        · by_cases h14 : (splitCsv (strTrim line)).length = DEFAULT_HEADER.length
          · rw [handleLine_none_numeric14 env now line st hh ht hc ha hn h14,
              decodeRow_match env now DEFAULT_HEADER _ _ h14]
            exact lookup_updateSeries env DEFAULT_HEADER _ _ st.series k
          · rw [handleLine_none_numeric_other env now line st hh ht hc ha hn h14]
            exact Or.inl rfl
      · rw [handleLine_none_textual env now line st hh ht hc ha]
        exact Or.inl rfl
  · cases hc : strContainsComma (strTrim line)
    · rw [handleLine_some_nocomma env now line st hdr hh ht hc]
      exact Or.inl rfl
    · rw [handleLine_some_comma env now line st hdr hh ht hc]
      by_cases hm : (splitCsv (strTrim line)).length = hdr.length
      · rw [decodeRow_match env now hdr _ _ hm]
        exact lookup_updateSeries env hdr _ _ st.series k
      · rw [decodeRow_mismatch env now hdr _ _ hm]
        exact Or.inl rfl

theorem runLines_series_le (env : JSEnv) :
    ∀ (inputs : List (Int × String)) (st : DashState),
      (∀ k, ((List.lookup k st.series).getD []).length ≤ maxPoints) →
      ∀ k, ((List.lookup k (runLines env inputs st).series).getD []).length ≤
        maxPoints := by
  intro inputs
  induction inputs with
  | nil => intro st h k; exact h k
  | cons p rest ih =>
    intro st h
    refine ih _ (fun k => ?_)
    rcases handleLine_series_step env p.1 p.2 st k with hstep | ⟨q, hq⟩
    · rw [hstep]; exact h k
    · rw [hq]
      simp only [Option.getD_some]
      exact lastN_length_le maxPoints _

/-- C7: along any run from the initial state, no sensor's series ever
exceeds `maxPoints` (600) entries; and every single `handleLine` step
either leaves a sensor's series untouched or replaces it by exactly the
`maxPoints` most recent points, in arrival order, of the old series with
one point appended — FIFO eviction from the front. -/
theorem c7_series_invariant :
    (∀ (env : JSEnv) (inputs : List (Int × String)) (k : String),
      ((List.lookup k (runLines env inputs initState).series).getD []).length ≤
        maxPoints) ∧
    (∀ (env : JSEnv) (now : Int) (line : String) (st : DashState) (k : String),
      List.lookup k (handleLine env now line st).series =
        List.lookup k st.series ∨
      ∃ p : SeriesPoint,
        List.lookup k (handleLine env now line st).series =
          some (lastN maxPoints (((List.lookup k st.series).getD []) ++ [p]))) :=
  ⟨fun env inputs k =>
    runLines_series_le env inputs initState (fun k2 => by simp [initState]) k,
   handleLine_series_step⟩

/-! ## Claim C8: timestamp resolver -/

/-- A field map carrying lowercase `date` and `time` keys. -/
def rowC8 : List (String × String) := [("date", "2025-09-22"), ("time", "14:07:03")]

/-- Oracle whose date parser succeeds on every string, with value 42. -/
def envD : JSEnv := ⟨fun _ => none, fun _ => some 42⟩

/-- C8: the claim says the resolver finds the Date and Time fields
case-insensitively. The code reads only the exact spellings `row["Date"] ||
row["DATE"]` and `row["Time"] || row["TIME"]`: on a field map with
lowercase `date`/`time` keys it falls back to the arrival instant (7) even
under a parse oracle that would succeed everywhere (42), so the
case-insensitive clause of the claim is false. -/
theorem c8_counterexample :
    buildTimestamp envD rowC8 7 = 7 ∧ (7 : Int) ≠ 42 := by
  constructor
  · decide
  · decide

/-- C8 (amended): the resolver reads the fields spelled exactly `"Date"` or
`"DATE"` and `"Time"` or `"TIME"` (an empty string counts as absent, not
case-insensitive lookup); when both are present and non-empty and the
combined `DATE ++ "T" ++ TIME` parses, that instant is the result; when the
fields are absent, or the parse always fails, the fallback arrival instant
is the result — in every case a well-defined integer, never null or NaN. -/
theorem c8_buildTimestamp (env : JSEnv) (row : List (String × String))
    (fb : Int) :
    (∀ d t ms, List.lookup "Date" row = some d → d ≠ "" →
      List.lookup "Time" row = some t → t ≠ "" →
      env.jsDateParse (d ++ "T" ++ t) = some ms →
      buildTimestamp env row fb = ms) ∧
    (List.lookup "Date" row = none → List.lookup "DATE" row = none →
      buildTimestamp env row fb = fb) ∧
    ((∀ s, env.jsDateParse s = none) → buildTimestamp env row fb = fb) := by
  refine ⟨?_, ?_, ?_⟩
  · intro d t ms hd hdne hti htne hp
    unfold buildTimestamp
    rw [hd, hti]
    simp [jsOrStr, truthyStr, hdne, htne, hp]
  · intro h1 h2
    unfold buildTimestamp
    rw [h1, h2]
    simp [jsOrStr, truthyStr]
  · intro hall
    unfold buildTimestamp
    simp only [hall]
    split <;> rfl

/-- Oracle and row for the C8 witness: the combined string parses to 99. -/
def envW : JSEnv :=
  ⟨fun _ => none,
   fun s => if s = "2025-09-22T14:07:03" then some 99 else none⟩

/-- Field map with exact-case Date and Time keys. -/
def rowW : List (String × String) :=
  [("Date", "2025-09-22"), ("Time", "14:07:03")]

/-- Witness for the amended C8 theorem. -/
theorem c8_buildTimestamp_witness :
    List.lookup "Date" rowW = some "2025-09-22" ∧
    List.lookup "Time" rowW = some "14:07:03" ∧
    envW.jsDateParse ("2025-09-22" ++ "T" ++ "14:07:03") = some 99 ∧
    buildTimestamp envW rowW 7 = 99 :=
  ⟨by decide, by decide, by decide,
    (c8_buildTimestamp envW rowW 7).1 "2025-09-22" "14:07:03" 99
      (by decide) (by decide) (by decide) (by decide) (by decide)⟩

/-! ## Claim C6: arity checking and the field map -/

/-- A state whose schema is the two distinct fields A, B. -/
def stHdrAB : DashState := { initState with header := some ["A", "B"] }

/-- C6: two failures of the claim as stated. With the duplicate-name schema
`["A", "A"]` (reachable through the set-custom action or a textual header
`"A,A"`), a 2-token row builds a Field Map with a single entry, not
`k = 2` entries. And with schema `["A", "B"]`, the delimiter-free line
`"hello"` has token count 1 ≠ 2 yet is ignored with no diagnostic and no
store change, while the claim requires a diagnostic for every token-count
mismatch. -/
theorem c6_counterexample :
    (buildRow ["A", "A"] ["1", "2"]).length = 1 ∧
    (["A", "A"] : List String).length = 2 ∧
    (handleLine envT 0 "hello" stHdrAB).warnings = stHdrAB.warnings ∧
    (handleLine envT 0 "hello" stHdrAB).latest = stHdrAB.latest := by
  refine ⟨by decide, by decide, by decide, by decide⟩

/-- C6 (amended): with the Schema SET to `hdr` of length k, a line
containing the delimiter whose token count equals k builds a Field Map with
one entry per distinct field name — exactly k entries when the names are
distinct — and updates Snapshot and Series with no diagnostic; a line
containing the delimiter whose token count differs from k is rejected with
a `console.warn` diagnostic and no change to Snapshot, Series, or Schema.
(A line without the delimiter is ignored without a diagnostic.) -/
theorem c6_arity (env : JSEnv) (now : Int) (line : String) (st : DashState)
    (hdr : List String) (hh : st.header = some hdr) :
    (∀ cells : List String, hdr.Nodup → cells.length = hdr.length →
      (buildRow hdr cells).length = hdr.length) ∧
    (strTrim line ≠ "" → strContainsComma (strTrim line) = true →
      (splitCsv (strTrim line)).length = hdr.length →
      (handleLine env now line st).latest =
        updateLatest env hdr (buildRow hdr (splitCsv (strTrim line))) st.latest ∧
      (handleLine env now line st).series =
        updateSeries env hdr (buildRow hdr (splitCsv (strTrim line)))
          (buildTimestamp env (buildRow hdr (splitCsv (strTrim line))) now)
          st.series ∧
      (handleLine env now line st).header = st.header ∧
      (handleLine env now line st).warnings = st.warnings) ∧
    (strTrim line ≠ "" → strContainsComma (strTrim line) = true →
      (splitCsv (strTrim line)).length ≠ hdr.length →
      (handleLine env now line st).latest = st.latest ∧
      (handleLine env now line st).series = st.series ∧
      (handleLine env now line st).header = st.header ∧
      (handleLine env now line st).warnings = st.warnings + 1) := by
  refine ⟨fun cells hnd hlen => buildRow_length hdr cells hnd hlen, ?_, ?_⟩
  · intro ht hc hm
    rw [handleLine_some_comma env now line st hdr hh ht hc,
      decodeRow_match env now hdr _ _ hm]
    refine ⟨?_, ?_, rfl, rfl⟩ <;> (dsimp only)
  · intro ht hc hm
    rw [handleLine_some_comma env now line st hdr hh ht hc,
      decodeRow_mismatch env now hdr _ _ hm]
    exact ⟨rfl, rfl, rfl, rfl⟩

/-- Witness for the amended C6 theorem: a 2-token row decodes against the
2-field schema; a 3-token row is rejected with one diagnostic and no store
change. -/
theorem c6_arity_witness :
    (["A", "B"] : List String).Nodup ∧
    (buildRow ["A", "B"] ["1", "5"]).length = 2 ∧
    (handleLine envT 0 "1,5" stHdrAB).warnings = stHdrAB.warnings ∧
    (handleLine envT 0 "1,2,3" stHdrAB).warnings = stHdrAB.warnings + 1 ∧
    (handleLine envT 0 "1,2,3" stHdrAB).latest = stHdrAB.latest :=
  ⟨by decide,
   (c6_arity envT 0 "1,5" stHdrAB ["A", "B"] rfl).1 ["1", "5"]
     (by decide) (by decide),
   ((c6_arity envT 0 "1,5" stHdrAB ["A", "B"] rfl).2.1
     (by decide) (by decide) (by decide)).2.2.2,
   ((c6_arity envT 0 "1,2,3" stHdrAB ["A", "B"] rfl).2.2
     (by decide) (by decide) (by decide)).2.2.2,
   ((c6_arity envT 0 "1,2,3" stHdrAB ["A", "B"] rfl).2.2
     (by decide) (by decide) (by decide)).1⟩

/-! ## Claim C5: default-schema auto-adoption -/

/-- C5: while the Schema is unset, a non-empty line that contains the
delimiter and consists only of the numeric character set transitions to the
default schema and is decoded as data in the same step exactly when its
token count is 14 (the default schema's length); with any other token count
the line is discarded and the Schema stays unset with no store change. -/
theorem c5_default_header_adoption (env : JSEnv) (now : Int) (line : String)
    (st : DashState) (hh : st.header = none) (ht : strTrim line ≠ "")
    (hc : strContainsComma (strTrim line) = true)
    (hn : looksLikeNumericCsv (strTrim line) = true) :
    ((splitCsv (strTrim line)).length = DEFAULT_HEADER.length →
      (handleLine env now line st).header = some DEFAULT_HEADER ∧
      (handleLine env now line st).latest =
        updateLatest env DEFAULT_HEADER
          (buildRow DEFAULT_HEADER (splitCsv (strTrim line))) st.latest ∧
      (handleLine env now line st).series =
        updateSeries env DEFAULT_HEADER
          (buildRow DEFAULT_HEADER (splitCsv (strTrim line)))
          (buildTimestamp env
            (buildRow DEFAULT_HEADER (splitCsv (strTrim line))) now)
          st.series) ∧
    ((splitCsv (strTrim line)).length ≠ DEFAULT_HEADER.length →
      (handleLine env now line st).header = none ∧
      (handleLine env now line st).latest = st.latest ∧
      (handleLine env now line st).series = st.series) := by
  have ha := looksLikeNumericCsv_no_alpha _ hn
  constructor
  · intro h14
    rw [handleLine_none_numeric14 env now line st hh ht hc ha hn h14,
      decodeRow_match env now DEFAULT_HEADER _ _ h14]
    refine ⟨rfl, ?_, ?_⟩ <;> (dsimp only)
  · intro h14
    rw [handleLine_none_numeric_other env now line st hh ht hc ha hn h14]
    exact ⟨hh, rfl, rfl⟩

/-- Witness for C5: a 14-token numeric line auto-adopts the default schema
and decodes immediately; a 2-token numeric line is discarded and the schema
stays unset. -/
theorem c5_default_header_adoption_witness :
    looksLikeNumericCsv (strTrim "1,2,3,4,5,6,7,8,9,10,11,12,13,14") = true ∧
    (splitCsv (strTrim "1,2,3,4,5,6,7,8,9,10,11,12,13,14")).length =
      DEFAULT_HEADER.length ∧
    (handleLine envT 3 "1,2,3,4,5,6,7,8,9,10,11,12,13,14" initState).header =
      some DEFAULT_HEADER ∧
    (handleLine envT 3 "1,2" initState).header = none ∧
    (handleLine envT 3 "1,2" initState).latest = initState.latest :=
  ⟨by decide, by decide,
   ((c5_default_header_adoption envT 3 "1,2,3,4,5,6,7,8,9,10,11,12,13,14"
     initState rfl (by decide) (by decide) (by decide)).1 (by decide)).1,
   ((c5_default_header_adoption envT 3 "1,2" initState rfl
     (by decide) (by decide) (by decide)).2 (by decide)).1,
   ((c5_default_header_adoption envT 3 "1,2" initState rfl
     (by decide) (by decide) (by decide)).2 (by decide)).2.1⟩

/-! ## Claim C2: snapshot coercion and series null -/

/-- C2: the claim says that after trimming, an empty token, a
case-insensitive `"N/A"`, and a non-finite parse all store null in the
Snapshot. In the code the snapshot write is `parseMaybeNumber(...) ??
row[h]`: whenever `parseMaybeNumber` yields null, the raw token string is
stored instead, so `"N/A"` is stored as the string `"N/A"` and an empty
token as the string `""` — never null. The claim as stated is false. -/
theorem c2_counterexample :
    List.lookup "A" (handleLine envT 0 "N/A,5" stHdrAB).latest =
      some (.str "N/A") ∧
    JSValue.str "N/A" ≠ JSValue.null ∧
    List.lookup "A" (handleLine envT 0 ",5" stHdrAB).latest =
      some (.str "") := by
  refine ⟨by decide, by decide, by decide⟩

/-- C2 (amended): for every decoded row and field, the Snapshot stores the
parsed number when the trimmed token parses to a finite number, and
otherwise stores the token string itself (also for empty, `"N/A"`, and
non-finite tokens; null appears only for an absent value); the Series
value for such a field is null, because it comes from `parseMaybeNumber`,
which maps empty, `"N/A"`, and non-finite tokens to null. -/
theorem c2_snapshot_coercion :
    (∀ (env : JSEnv) (s : String),
      strTrim s = "" ∨ strToUpper (strTrim s) = "N/A" ∨
        env.jsNumber (strTrim s) = none →
      coerceLatest env (some s) = .str s) ∧
    (∀ (env : JSEnv) (s : String) (q : ℚ), strTrim s ≠ "" →
      strToUpper (strTrim s) ≠ "N/A" → env.jsNumber (strTrim s) = some q →
      coerceLatest env (some s) = .num q) ∧
    (∀ env : JSEnv, parseMaybeNumber env (some "N/A") = none) ∧
    (∀ (env : JSEnv) (now : Int) (line : String) (st : DashState)
      (hdr : List String) (h : String), st.header = some hdr → h ∈ hdr →
      strTrim line ≠ "" → strContainsComma (strTrim line) = true →
      (splitCsv (strTrim line)).length = hdr.length →
      List.lookup h (handleLine env now line st).latest =
        some (coerceLatest env
          (List.lookup h (buildRow hdr (splitCsv (strTrim line)))))) := by
  refine ⟨?_, ?_, ?_, ?_⟩
  · intro env s hcase
    have hp : parseMaybeNumber env (some s) = none := by
      simp only [parseMaybeNumber]
      rcases hcase with h | h | h
      · rw [if_pos (Or.inl h)]
      · rw [if_pos (Or.inr h)]
      · by_cases hg : strTrim s = "" ∨ strToUpper (strTrim s) = "N/A"
        · rw [if_pos hg]
        · rw [if_neg hg, h]
    simp [coerceLatest, hp]
  · intro env s q h1 h2 h3
    have hp : parseMaybeNumber env (some s) = some q := by
      simp only [parseMaybeNumber]
      rw [if_neg (by tauto), h3]
    simp [coerceLatest, hp]
  · intro env
    simp only [parseMaybeNumber]
    rw [if_pos (Or.inr (by decide))]
  · intro env now line st hdr h hh hmem ht hc hm
    rw [handleLine_some_comma env now line st hdr hh ht hc,
      decodeRow_match env now hdr _ _ hm]
    dsimp only
    exact lookup_updateLatest env (buildRow hdr (splitCsv (strTrim line)))
      hdr st.latest h hmem

/-- Witness for the amended C2 theorem: the `"N/A"` token of a decoded row
is stored as the string `"N/A"` in the snapshot while its parsed value, as
used for the Series point, is null; the token `"5"` is stored as the
number 5. -/
theorem c2_snapshot_coercion_witness :
    strToUpper (strTrim "N/A") = "N/A" ∧
    coerceLatest envT (some "N/A") = .str "N/A" ∧
    parseMaybeNumber envT (some "N/A") = none ∧
    envT.jsNumber (strTrim "5") = some 5 ∧
    coerceLatest envT (some "5") = .num 5 ∧
    List.lookup "A" (handleLine envT 0 "N/A,5" stHdrAB).latest =
      some (coerceLatest envT
        (List.lookup "A" (buildRow ["A", "B"] (splitCsv (strTrim "N/A,5"))))) :=
  ⟨by decide,
   c2_snapshot_coercion.1 envT "N/A" (Or.inr (Or.inl (by decide))),
   c2_snapshot_coercion.2.2.1 envT,
   by decide,
   c2_snapshot_coercion.2.1 envT "5" 5 (by decide) (by decide) (by decide),
   c2_snapshot_coercion.2.2.2 envT 0 "N/A,5" stHdrAB ["A", "B"] "A" rfl
     (by decide) (by decide) (by decide) (by decide)⟩

end Pam
